import Mathlib

/-!
Shallow embedding of the order/product REST handlers of the CRM-Dashboard
repository:

* `src/app/api/orders/route.ts`        — `POST` (order creation)
* `src/app/api/orders/[id]/route.ts`   — `PUT` (order update / cancel), `DELETE`
* `src/app/api/products/[id]/route.ts` — `PUT` (product update), `DELETE`

The database is modelled as an explicit state (`DB`); each handler is a pure
function from a state and a request to a result (`Except ApiError _`) and a
successor state.  Monetary values are embedded as rationals (`ℚ`), quantities
and stock counters as integers (`ℤ`).  Authentication, pagination and the
HTTP envelope are out of scope; fields of the Prisma models that no handler
logic reads (images, categories, payments, timestamps of products, …) are
elided.  Identifier generation (`cuid`, `Date.now()`) is passed in as an
explicit parameter.
-/

/-- Order lifecycle statuses (Prisma enum used by both routes). -/
inductive OrderStatus
  | PENDING
  | CONFIRMED
  | PROCESSING
  | SHIPPED
  | DELIVERED
  | CANCELLED
  deriving DecidableEq, Repr

/-- Payment statuses (`OrderUpdateSchema.paymentStatus`). -/
inductive PaymentStatus
  | PENDING
  | PAID
  | FAILED
  | REFUNDED
  deriving DecidableEq, Repr

/-- Shipping statuses (`OrderUpdateSchema.shippingStatus`). -/
inductive ShippingStatus
  | NOT_SHIPPED
  | SHIPPED
  | IN_TRANSIT
  | DELIVERED
  deriving DecidableEq, Repr

/-- A catalog product row (`Product` model): the fields the handlers read. -/
structure Product where
  id : String
  name : String
  sku : String
  price : ℚ
  stock : ℤ
  deriving DecidableEq, Repr

/-- One line of an order-creation request (`OrderCreateSchema.items[i]`).
Note that the request itself carries a `price` field. -/
structure OrderItemInput where
  productId : String
  quantity : ℤ
  price : ℚ
  deriving DecidableEq, Repr

/-- A stored order line (`OrderItem` rows created by the order `POST`). -/
structure OrderItem where
  productId : String
  quantity : ℤ
  price : ℚ
  total : ℚ
  deriving DecidableEq, Repr

/-- A stored order (`Order` model): the fields the handlers read or write. -/
structure Order where
  id : String
  orderNumber : String
  customerId : String
  subtotal : ℚ
  tax : ℚ
  shipping : ℚ
  total : ℚ
  status : OrderStatus
  paymentStatus : PaymentStatus
  shippingStatus : ShippingStatus
  shippingAddressId : Option String
  notes : Option String
  items : List OrderItem
  createdAt : ℤ
  updatedAt : ℤ
  deriving DecidableEq, Repr

/-- The database state the handlers touch: customers are only ever looked up
by id, so they are kept as a list of ids. -/
structure DB where
  customers : List String
  products : List Product
  orders : List Order
  deriving DecidableEq, Repr

/-- The error responses the handlers can produce (each constructor stands for
one `NextResponse.json({ error: ... })` site of the routes). -/
inductive ApiError
  | validationFailed
  | customerNotFound
  | productsNotFound
  | insufficientStock (productName : String)
  | orderNotFound
  | onlyPendingOrdersCanBeDeleted
  | productNotFound
  | skuAlreadyExists
  | cannotDeleteProductWithOrders
  deriving DecidableEq, Repr

/-- An order-creation request body (`OrderCreateSchema`). -/
structure OrderCreateInput where
  customerId : String
  items : List OrderItemInput
  shippingAddressId : Option String
  notes : Option String
  deriving DecidableEq, Repr

/-- `OrderCreateSchema.parse` succeeds: non-empty customer id, at least one
item, and per item a non-empty product id, quantity ≥ 1 and price ≥ 0. -/
def OrderCreateSchema.valid (input : OrderCreateInput) : Bool :=
  input.customerId.length ≥ 1 &&
    input.items.length ≥ 1 &&
    input.items.all fun it =>
      it.productId.length ≥ 1 && 1 ≤ it.quantity && 0 ≤ it.price

/-- `prisma.product.findMany({ where: { id: { in: ids } } })`. -/
def findProducts (db : DB) (ids : List String) : List Product :=
  db.products.filter fun p => ids.contains p.id

/-- The stock-availability loop of the order `POST`: the name of the product
of the first item whose product (as resolved by `products.find`) has
`stock < quantity`, if any. -/
def insufficientName (products : List Product) : List OrderItemInput → Option String
  | [] => none
  | item :: rest =>
    match products.find? (fun p => p.id == item.productId) with
    | some product =>
      if product.stock < item.quantity then some product.name
      else insufficientName products rest
    | none => insufficientName products rest

/-- `items.reduce((sum, item) => sum + item.price * item.quantity, 0)`. -/
def orderSubtotal (items : List OrderItemInput) : ℚ :=
  items.foldl (fun sum it => sum + it.price * (it.quantity : ℚ)) 0

/-- One `tx.product.update({ where: { id }, data: { stock: { decrement } } })`. -/
def decrementOne (products : List Product) (productId : String) (q : ℤ) :
    List Product :=
  products.map fun p =>
    if p.id == productId then { p with stock := p.stock - q } else p

/-- The decrement loop of the order `POST` transaction. -/
def decrementStock (products : List Product) (items : List OrderItemInput) :
    List Product :=
  items.foldl (fun ps it => decrementOne ps it.productId it.quantity) products

/-- One `tx.product.update({ where: { id }, data: { stock: { increment } } })`. -/
def incrementOne (products : List Product) (productId : String) (q : ℤ) :
    List Product :=
  products.map fun p =>
    if p.id == productId then { p with stock := p.stock + q } else p

/-- The stock-restore loops of the order `PUT` (cancellation) and `DELETE`. -/
def incrementStock (products : List Product) (upd : List (String × ℤ)) :
    List Product :=
  upd.foldl (fun ps u => incrementOne ps u.1 u.2) products

/-- The read/validate phase of `POST /api/orders` — everything the handler
does before opening the `prisma.$transaction`: schema validation, customer
lookup, product lookup (count comparison) and the stock-availability check.
Returns the error it would respond with, or `none` if the handler proceeds
to the transaction. -/
def Orders.POST.check (db : DB) (input : OrderCreateInput) : Option ApiError :=
  if ¬ OrderCreateSchema.valid input then some .validationFailed
  else if ¬ db.customers.contains input.customerId then some .customerNotFound
  else
    let productIds := input.items.map (·.productId)
    let products := findProducts db productIds
    if products.length ≠ productIds.length then some .productsNotFound
    else
      match insufficientName products input.items with
      | some name => some (.insufficientStock name)
      | none => none

/-- The `prisma.$transaction` phase of `POST /api/orders`: create the order
with its lines (line price and total taken from the request items) and
decrement the stock of each item's product. -/
def Orders.POST.commit (db : DB) (input : OrderCreateInput) (newId : String)
    (now : ℤ) : Order × DB :=
  let subtotal := orderSubtotal input.items
  let tax := subtotal * (1 / 10)
  let shipping : ℚ := 10
  let total := subtotal + tax + shipping
  let newOrder : Order :=
    { id := newId
      orderNumber := "ORD-" ++ toString now
      customerId := input.customerId
      subtotal := subtotal
      tax := tax
      shipping := shipping
      total := total
      status := .PENDING
      paymentStatus := .PENDING
      shippingStatus := .NOT_SHIPPED
      shippingAddressId := input.shippingAddressId
      notes := input.notes
      items := input.items.map fun it =>
        { productId := it.productId
          quantity := it.quantity
          price := it.price
          total := it.price * (it.quantity : ℚ) }
      createdAt := now
      updatedAt := now }
  (newOrder,
    { db with
      orders := db.orders ++ [newOrder]
      products := decrementStock db.products input.items })

/-- `POST /api/orders`: the check phase followed, on success, by the
transaction. `newId` and `now` model the generated row id and `Date.now()`. -/
def Orders.POST (db : DB) (input : OrderCreateInput) (newId : String)
    (now : ℤ) : Except ApiError Order × DB :=
  match Orders.POST.check db input with
  | some e => (.error e, db)
  | none =>
    let r := Orders.POST.commit db input newId now
    (.ok r.1, r.2)

/-- An order-update request body (`OrderUpdateSchema`): every field optional,
statuses restricted to their enums by the schema (here by the types). -/
structure OrderUpdateInput where
  status : Option OrderStatus
  paymentStatus : Option PaymentStatus
  shippingStatus : Option ShippingStatus
  notes : Option String
  shippingAddressId : Option String
  deriving DecidableEq, Repr

/-- `tx.order.update({ data: { ...validatedData, updatedAt: new Date() } })`
applied to one row: absent fields are left unchanged. -/
def applyOrderUpdate (o : Order) (u : OrderUpdateInput) (now : ℤ) : Order :=
  { o with
    status := u.status.getD o.status
    paymentStatus := u.paymentStatus.getD o.paymentStatus
    shippingStatus := u.shippingStatus.getD o.shippingStatus
    notes := match u.notes with | some n => some n | none => o.notes
    shippingAddressId :=
      match u.shippingAddressId with | some a => some a | none => o.shippingAddressId
    updatedAt := now }

/-- `PUT /api/orders/[id]`: look the order up; compute the stock restores
(only when the request sets status `CANCELLED` and the order is not already
`CANCELLED`); then, in one transaction, update the order and apply the
restores.  No transition validation is performed on `status`. -/
def OrderDetail.PUT (db : DB) (id : String) (u : OrderUpdateInput) (now : ℤ) :
    Except ApiError Order × DB :=
  match db.orders.find? (fun o => o.id == id) with
  | none => (.error .orderNotFound, db)
  | some existingOrder =>
    let stockUpdates : List (String × ℤ) :=
      if u.status = some .CANCELLED ∧ existingOrder.status ≠ .CANCELLED then
        existingOrder.items.map fun it => (it.productId, it.quantity)
      else []
    let updated := applyOrderUpdate existingOrder u now
    (.ok updated,
      { db with
        orders := db.orders.map fun o =>
          if o.id == id then applyOrderUpdate o u now else o
        products := incrementStock db.products stockUpdates })

/-- `DELETE /api/orders/[id]`: only `PENDING` orders may be deleted; deletion
restores each line's quantity to its product's stock and removes the order
(its lines live inside the order row here, mirroring the cascade). -/
def OrderDetail.DELETE (db : DB) (id : String) : Except ApiError Unit × DB :=
  match db.orders.find? (fun o => o.id == id) with
  | none => (.error .orderNotFound, db)
  | some existingOrder =>
    if existingOrder.status ≠ .PENDING then
      (.error .onlyPendingOrdersCanBeDeleted, db)
    else
      (.ok (),
        { db with
          products := incrementStock db.products
            (existingOrder.items.map fun it => (it.productId, it.quantity))
          orders := db.orders.filter fun o => ¬ o.id == id })

/-- A product-update request body (`updateProductSchema`): the fields the
embedded `Product` carries; every field optional. -/
structure ProductUpdateInput where
  name : Option String
  price : Option ℚ
  sku : Option String
  stock : Option ℤ
  deriving DecidableEq, Repr

/-- `updateProductSchema.parse` succeeds: name non-empty, price positive,
sku non-empty, stock a non-negative integer — each only if present. -/
def updateProductSchema.valid (u : ProductUpdateInput) : Bool :=
  (u.name.all fun n => n.length ≥ 1) &&
    (u.price.all fun p => 0 < p) &&
    (u.sku.all fun s => s.length ≥ 1) &&
    (u.stock.all fun s => 0 ≤ s)

/-- `PUT /api/products/[id]`: validate, look the product up, reject a sku
change colliding with another product's sku, then update the row (absent
fields unchanged). -/
def ProductDetail.PUT (db : DB) (id : String) (u : ProductUpdateInput) :
    Except ApiError Product × DB :=
  if ¬ updateProductSchema.valid u then (.error .validationFailed, db)
  else
    match db.products.find? (fun p => p.id == id) with
    | none => (.error .productNotFound, db)
    | some existingProduct =>
      if (u.sku.any fun s => s != existingProduct.sku &&
            db.products.any fun p => p.sku == s) then
        (.error .skuAlreadyExists, db)
      else
        (.ok
          { existingProduct with
            name := u.name.getD existingProduct.name
            price := u.price.getD existingProduct.price
            sku := u.sku.getD existingProduct.sku
            stock := u.stock.getD existingProduct.stock },
          { db with
            products := db.products.map fun p =>
              if p.id == id then
                { p with
                  name := u.name.getD p.name
                  price := u.price.getD p.price
                  sku := u.sku.getD p.sku
                  stock := u.stock.getD p.stock }
              else p })

/-- The `orderItems` relation of a product: every stored order line whose
`productId` is the product's id. -/
def productOrderItems (db : DB) (productId : String) : List OrderItem :=
  (db.orders.map fun o => o.items.filter fun it => it.productId == productId).flatten

/-- `DELETE /api/products/[id]`: a product with associated order items cannot
be deleted; otherwise the row is removed. -/
def ProductDetail.DELETE (db : DB) (id : String) : Except ApiError Unit × DB :=
  match db.products.find? (fun p => p.id == id) with
  | none => (.error .productNotFound, db)
  | some existingProduct =>
    if (productOrderItems db existingProduct.id).length > 0 then
      (.error .cannotDeleteProductWithOrders, db)
    else
      (.ok (),
        { db with products := db.products.filter fun p => ¬ p.id == id })

/-! ## Derived notions used by the verification -/

/-- Total quantity the order `POST` decrement loop subtracts from the product
with id `pid`: the sum of the quantities of all request items naming it. -/
def lineQuantityTotal (items : List OrderItemInput) (pid : String) : ℤ :=
  ((items.filter fun it => it.productId == pid).map fun it => it.quantity).sum

/-- Total quantity a restore loop adds to the product with id `pid`. -/
def restoreTotalFor (upd : List (String × ℤ)) (pid : String) : ℤ :=
  ((upd.filter fun u => u.1 == pid).map fun u => u.2).sum

/-- Two concurrent `POST /api/orders` requests, interleaved as the source
allows: the stock-availability check of each request is a read performed
*before* its `prisma.$transaction` opens, so both checks can observe the same
initial state; the two write transactions then commit one after the other
(each one's decrement is unconditional).  If both checks pass against `db`,
both commits are applied. -/
def Orders.POST.concurrentPair (db : DB) (input₁ input₂ : OrderCreateInput)
    (id₁ id₂ : String) (now : ℤ) : DB :=
  if Orders.POST.check db input₁ = none ∧ Orders.POST.check db input₂ = none then
    (Orders.POST.commit (Orders.POST.commit db input₁ id₁ now).2 input₂ id₂ now).2
  else db

/-- Well-formedness of a database state: product ids are distinct (they are a
primary key), every product's stock is non-negative, and every stored order
line's quantity is non-negative (order lines are only ever created from
requests validated to have quantity ≥ 1). -/
def DB.WF (db : DB) : Prop :=
  (db.products.map Product.id).Nodup ∧
    (∀ p ∈ db.products, 0 ≤ p.stock) ∧
    (∀ o ∈ db.orders, ∀ it ∈ o.items, 0 ≤ it.quantity)

instance (db : DB) : Decidable db.WF := by
  unfold DB.WF; infer_instance

/-- The state-mutating API operations of the two order routes and the product
route, as one type, for stating state invariants. -/
inductive ApiOp
  | createOrder (input : OrderCreateInput) (newId : String) (now : ℤ)
  | updateOrder (id : String) (u : OrderUpdateInput) (now : ℤ)
  | deleteOrder (id : String)
  | updateProduct (id : String) (u : ProductUpdateInput)
  | deleteProduct (id : String)

/-- The successor state an operation leaves behind. -/
def ApiOp.apply (op : ApiOp) (db : DB) : DB :=
  match op with
  | .createOrder input newId now => (Orders.POST db input newId now).2
  | .updateOrder id u now => (OrderDetail.PUT db id u now).2
  | .deleteOrder id => (OrderDetail.DELETE db id).2
  | .updateProduct id u => (ProductDetail.PUT db id u).2
  | .deleteProduct id => (ProductDetail.DELETE db id).2

/-! ## Concrete states and requests used by witnesses and counterexamples -/

/-- Catalog product `X`: id `px`, unit price 10, 5 in stock. -/
def prodX : Product := { id := "px", name := "X", sku := "SKU-X", price := 10, stock := 5 }

/-- Catalog product `Y`: id `py`, unit price 20, 4 in stock. -/
def prodY : Product := { id := "py", name := "Y", sku := "SKU-Y", price := 20, stock := 4 }

/-- A database with one customer, products `X` and `Y`, and no orders. -/
def db0 : DB := { customers := ["c1"], products := [prodX, prodY], orders := [] }

/-- The spec's scenario request: lines `[(X,2,$10),(Y,1,$20)]`. -/
def reqXY : OrderCreateInput :=
  { customerId := "c1"
    items := [ { productId := "px", quantity := 2, price := 10 },
               { productId := "py", quantity := 1, price := 20 } ]
    shippingAddressId := none
    notes := none }

/-- A request for 6 of `X` (more than the 5 in stock). -/
def reqSix : OrderCreateInput :=
  { customerId := "c1"
    items := [ { productId := "px", quantity := 6, price := 10 } ]
    shippingAddressId := none
    notes := none }

/-- A request for 3 of `X`. -/
def reqThree : OrderCreateInput :=
  { customerId := "c1"
    items := [ { productId := "px", quantity := 3, price := 10 } ]
    shippingAddressId := none
    notes := none }

/-- A request naming `px` on two separate lines. -/
def reqDup : OrderCreateInput :=
  { customerId := "c1"
    items := [ { productId := "px", quantity := 1, price := 10 },
               { productId := "px", quantity := 1, price := 10 } ]
    shippingAddressId := none
    notes := none }

/-- A request for 1 of `Y` carrying price 7, while the catalog price is 20. -/
def reqCheap : OrderCreateInput :=
  { customerId := "c1"
    items := [ { productId := "py", quantity := 1, price := 7 } ]
    shippingAddressId := none
    notes := none }

/-- A request whose first line (2 of `X`) is coverable but whose second line
asks for 9 of `Y` with only 4 in stock. -/
def reqPartial : OrderCreateInput :=
  { customerId := "c1"
    items := [ { productId := "px", quantity := 2, price := 10 },
               { productId := "py", quantity := 9, price := 20 } ]
    shippingAddressId := none
    notes := none }

/-- The order the scenario request creates. -/
def ordXY : Order := (Orders.POST.commit db0 reqXY "o1" 0).1

/-- The state after creating the scenario order (stocks 3 and 3). -/
def db1 : DB := (Orders.POST db0 reqXY "o1" 0).2

/-- An update request asking for status `SHIPPED` and nothing else. -/
def upShipped : OrderUpdateInput :=
  { status := some .SHIPPED, paymentStatus := none, shippingStatus := none,
    notes := none, shippingAddressId := none }

/-- An update request asking for status `CANCELLED` and nothing else. -/
def upCancelled : OrderUpdateInput :=
  { status := some .CANCELLED, paymentStatus := none, shippingStatus := none,
    notes := none, shippingAddressId := none }

/-- The state after cancelling the scenario order (stocks back to 5 and 4). -/
def db2 : DB := (OrderDetail.PUT db1 "o1" upCancelled 1).2

/-- The scenario order after the cancellation update. -/
def ordCancelled : Order := applyOrderUpdate ordXY upCancelled 1

/-- The order created from `reqCheap` (its stored line price is 7). -/
def ordCheap : Order := (Orders.POST.commit db0 reqCheap "o1" 0).1

/-- The state after creating the `reqCheap` order. -/
def db4 : DB := (Orders.POST db0 reqCheap "o1" 0).2

/-! ## Helper lemmas -/

theorem lineQuantityTotal_nil (pid : String) : lineQuantityTotal [] pid = 0 := rfl

theorem lineQuantityTotal_cons (it : OrderItemInput) (rest : List OrderItemInput)
    (pid : String) :
    lineQuantityTotal (it :: rest) pid =
      if it.productId = pid then it.quantity + lineQuantityTotal rest pid
      else lineQuantityTotal rest pid := by
  by_cases h : it.productId = pid <;>
    simp [lineQuantityTotal, List.filter_cons, h]

theorem restoreTotalFor_nil (pid : String) : restoreTotalFor [] pid = 0 := rfl

theorem restoreTotalFor_cons (u : String × ℤ) (rest : List (String × ℤ))
    (pid : String) :
    restoreTotalFor (u :: rest) pid =
      if u.1 = pid then u.2 + restoreTotalFor rest pid
      else restoreTotalFor rest pid := by
  by_cases h : u.1 = pid <;>
    simp [restoreTotalFor, List.filter_cons, h]

theorem decrementStock_eq_map (items : List OrderItemInput) (ps : List Product) :
    decrementStock ps items =
      ps.map fun p => { p with stock := p.stock - lineQuantityTotal items p.id } := by
  induction items generalizing ps with
  | nil =>
    simp only [decrementStock, List.foldl_nil, lineQuantityTotal_nil, sub_zero]
    exact (List.map_id ps).symm
  | cons it rest ih =>
    have h1 : decrementStock ps (it :: rest) =
        decrementStock (decrementOne ps it.productId it.quantity) rest := rfl
    rw [h1, ih, decrementOne, List.map_map]
    refine List.map_congr_left ?_
    intro p _
    by_cases h : p.id = it.productId
    · simp [Function.comp, h, lineQuantityTotal_cons, sub_sub]
    · have hb : (p.id == it.productId) = false := by
        simp [h]
      simp only [Function.comp_apply, hb, Bool.false_eq_true, if_false]
      rw [lineQuantityTotal_cons, if_neg (fun hh => h hh.symm)]

theorem incrementStock_eq_map (upd : List (String × ℤ)) (ps : List Product) :
    incrementStock ps upd =
      ps.map fun p => { p with stock := p.stock + restoreTotalFor upd p.id } := by
  induction upd generalizing ps with
  | nil =>
    simp only [incrementStock, List.foldl_nil, restoreTotalFor_nil, add_zero]
    exact (List.map_id ps).symm
  | cons u rest ih =>
    have h1 : incrementStock ps (u :: rest) =
        incrementStock (incrementOne ps u.1 u.2) rest := rfl
    rw [h1, ih, incrementOne, List.map_map]
    refine List.map_congr_left ?_
    intro p _
    by_cases h : p.id = u.1
    · simp [Function.comp, h, restoreTotalFor_cons, add_assoc]
    · have hb : (p.id == u.1) = false := by
        simp [h]
      simp only [Function.comp_apply, hb, Bool.false_eq_true, if_false]
      rw [restoreTotalFor_cons, if_neg (fun hh => h hh.symm)]

theorem find?_id_eq_some (ps : List Product)
    (hn : (ps.map Product.id).Nodup) (p : Product) (hp : p ∈ ps)
    (pid : String) (hid : p.id = pid) :
    ps.find? (fun q => q.id == pid) = some p := by
  induction ps with
  | nil => cases hp
  | cons q rest ih =>
    have hn' := hn
    rw [List.map_cons, List.nodup_cons] at hn'
    by_cases hq : q.id = pid
    · have hb : (q.id == pid) = true := by simp [hq]
      have hfind : List.find? (fun x => x.id == pid) (q :: rest) = some q :=
        List.find?_cons_of_pos rest hb
      rw [hfind]
      rcases List.mem_cons.mp hp with h | h
      · rw [h]
      · exfalso
        apply hn'.1
        rw [hq, ← hid]
        exact List.mem_map.mpr ⟨p, h, rfl⟩
    · have hb : (q.id == pid) = false := by simp [hq]
      have hfind : List.find? (fun x => x.id == pid) (q :: rest) =
          List.find? (fun x => x.id == pid) rest :=
        List.find?_cons_of_neg rest (by simp [hb])
      rw [hfind]
      rcases List.mem_cons.mp hp with h | h
      · exact absurd (h ▸ hid) hq
      · exact ih hn'.2 h

theorem filter_productId_eq_single (items : List OrderItemInput)
    (hn : (items.map fun it => it.productId).Nodup)
    (it : OrderItemInput) (hit : it ∈ items) :
    items.filter (fun x => x.productId == it.productId) = [it] := by
  induction items with
  | nil => cases hit
  | cons a rest ih =>
    have hn' := hn
    rw [List.map_cons, List.nodup_cons] at hn'
    rcases List.mem_cons.mp hit with h | h
    · subst h
      rw [List.filter_cons_of_pos (by simp)]
      have hrest : rest.filter (fun x => x.productId == it.productId) = [] := by
        rw [List.filter_eq_nil_iff]
        intro x hx hbeq
        apply hn'.1
        have : x.productId = it.productId := by simpa using hbeq
        rw [← this]
        exact List.mem_map.mpr ⟨x, hx, rfl⟩
      rw [hrest]
    · have hne : (a.productId == it.productId) = false := by
        simp only [beq_eq_false_iff_ne, ne_eq]
        intro he
        apply hn'.1
        rw [he]
        exact List.mem_map.mpr ⟨it, h, rfl⟩
      rw [List.filter_cons_of_neg (by simp [hne])]
      exact ih hn'.2 h

theorem lineQuantityTotal_eq_quantity (items : List OrderItemInput)
    (hn : (items.map fun it => it.productId).Nodup)
    (it : OrderItemInput) (hit : it ∈ items) :
    lineQuantityTotal items it.productId = it.quantity := by
  rw [lineQuantityTotal, filter_productId_eq_single items hn it hit]
  simp

theorem lineQuantityTotal_eq_zero (items : List OrderItemInput) (pid : String)
    (h : ∀ it ∈ items, it.productId ≠ pid) :
    lineQuantityTotal items pid = 0 := by
  rw [lineQuantityTotal]
  have : items.filter (fun it => it.productId == pid) = [] := by
    rw [List.filter_eq_nil_iff]
    intro x hx hbeq
    exact h x hx (by simpa using hbeq)
  rw [this]
  rfl

theorem restoreTotalFor_nonneg (upd : List (String × ℤ))
    (h : ∀ u ∈ upd, 0 ≤ u.2) (pid : String) : 0 ≤ restoreTotalFor upd pid := by
  apply List.sum_nonneg
  intro x hx
  obtain ⟨u, hu, rfl⟩ := List.mem_map.mp hx
  exact h u (List.mem_of_mem_filter hu)


theorem findProducts_sublist (db : DB) (ids : List String) :
    List.Sublist (findProducts db ids) db.products := List.filter_sublist _

theorem findProducts_ids_nodup (db : DB) (ids : List String)
    (hn : (db.products.map Product.id).Nodup) :
    ((findProducts db ids).map Product.id).Nodup :=
  List.Nodup.sublist ((findProducts_sublist db ids).map Product.id) hn

theorem mem_findProducts (db : DB) (ids : List String) (p : Product)
    (hp : p ∈ db.products) (hid : p.id ∈ ids) : p ∈ findProducts db ids := by
  rw [findProducts, List.mem_filter]
  refine ⟨hp, ?_⟩
  simpa [List.contains, List.elem_iff] using hid

theorem of_mem_findProducts (db : DB) (ids : List String) (p : Product)
    (hp : p ∈ findProducts db ids) : p ∈ db.products ∧ p.id ∈ ids := by
  rw [findProducts, List.mem_filter] at hp
  refine ⟨hp.1, ?_⟩
  simpa [List.contains, List.elem_iff] using hp.2

theorem findProducts_length_facts (db : DB) (ids : List String)
    (hn : (db.products.map Product.id).Nodup)
    (hlen : (findProducts db ids).length = ids.length) :
    ids.Nodup ∧ ∀ i ∈ ids, ∃ p ∈ db.products, p.id = i := by
  have hlnd : ((findProducts db ids).map Product.id).Nodup :=
    findProducts_ids_nodup db ids hn
  have hlsub : ((findProducts db ids).map Product.id) ⊆ ids := by
    intro x hx
    obtain ⟨p, hp, rfl⟩ := List.mem_map.mp hx
    exact (of_mem_findProducts db ids p hp).2
  have hllen : ((findProducts db ids).map Product.id).length = ids.length := by
    rw [List.length_map]
    exact hlen
  have hperm : List.Perm ((findProducts db ids).map Product.id) ids :=
    (hlnd.subperm hlsub).perm_of_length_le (le_of_eq hllen.symm)
  constructor
  · exact hperm.nodup_iff.mp hlnd
  · intro i hi
    obtain ⟨p, hp, hpe⟩ := List.mem_map.mp (hperm.mem_iff.mpr hi)
    exact ⟨p, (of_mem_findProducts db ids p hp).1, hpe⟩

theorem insufficientName_none_spec (products : List Product)
    (items : List OrderItemInput) (h : insufficientName products items = none) :
    ∀ item ∈ items, ∀ p,
      products.find? (fun q => q.id == item.productId) = some p →
        ¬ p.stock < item.quantity := by
  induction items with
  | nil =>
    intro item hit
    cases hit
  | cons a rest ih =>
    intro item hit p hfind
    simp only [insufficientName] at h
    rcases List.mem_cons.mp hit with rfl | hmem
    · simp only [hfind] at h
      by_cases hlt : p.stock < item.quantity
      · rw [if_pos hlt] at h
        cases h
      · exact hlt
    · have h' : insufficientName products rest = none := by
        cases hf : products.find? (fun q => q.id == a.productId) with
        | none =>
          simp only [hf] at h
          exact h
        | some r =>
          simp only [hf] at h
          by_cases hlt : r.stock < a.quantity
          · rw [if_pos hlt] at h
            cases h
          · rw [if_neg hlt] at h
            exact h
      exact ih h' item hmem p hfind

theorem insufficientName_first (products : List Product)
    (pre : List OrderItemInput) (item : OrderItemInput)
    (post : List OrderItemInput) (p : Product)
    (hfind : products.find? (fun q => q.id == item.productId) = some p)
    (hfail : p.stock < item.quantity)
    (hpre : ∀ q ∈ pre, ∀ r,
      products.find? (fun x => x.id == q.productId) = some r →
        q.quantity ≤ r.stock) :
    insufficientName products (pre ++ item :: post) = some p.name := by
  induction pre with
  | nil =>
    simp only [List.nil_append, insufficientName, hfind]
    rw [if_pos hfail]
  | cons a rest ih =>
    simp only [List.cons_append, insufficientName]
    cases hf : products.find? (fun q => q.id == a.productId) with
    | none =>
      simp only [hf]
      exact ih fun q hq => hpre q (List.mem_cons_of_mem a hq)
    | some r =>
      have hnl : ¬ r.stock < a.quantity :=
        not_lt.mpr (hpre a (List.mem_cons_self a rest) r hf)
      simp only [hf]
      rw [if_neg hnl]
      exact ih fun q hq => hpre q (List.mem_cons_of_mem a hq)

theorem Orders.POST.check_eq_none (db : DB) (input : OrderCreateInput)
    (h : Orders.POST.check db input = none) :
    OrderCreateSchema.valid input = true ∧
      db.customers.contains input.customerId = true ∧
      (findProducts db (input.items.map fun it => it.productId)).length =
        (input.items.map fun it => it.productId).length ∧
      insufficientName (findProducts db (input.items.map fun it => it.productId))
        input.items = none := by
  simp only [Orders.POST.check] at h
  split_ifs at h with h1 h2 h3
  refine ⟨by simpa using h1, by simpa using h2, by simpa using h3, ?_⟩
  cases hins : insufficientName
      (findProducts db (input.items.map fun it => it.productId)) input.items with
  | none => rfl
  | some nm =>
    rw [hins] at h
    cases h

/-! ## Claim C1 -/

/-- Claim C1: for every order-creation request that passes validation, whose
customer exists and whose product lookup succeeds, if some line's requested
quantity exceeds its product's current stock then `POST /api/orders` fails
with the insufficient-stock error naming the first failing product (in
request order), no order row is created and every product's stock is left
unchanged: the returned state is exactly the input state. -/
theorem orders_POST_insufficient_stock_all_or_nothing
    (db : DB) (input : OrderCreateInput) (newId : String) (now : ℤ)
    (pre post : List OrderItemInput) (item : OrderItemInput) (p : Product)
    (hn : (db.products.map Product.id).Nodup)
    (hval : OrderCreateSchema.valid input = true)
    (hcust : db.customers.contains input.customerId = true)
    (hlen : (findProducts db (input.items.map fun it => it.productId)).length =
      (input.items.map fun it => it.productId).length)
    (hsplit : input.items = pre ++ item :: post)
    (hp : p ∈ db.products) (hpid : p.id = item.productId)
    (hfail : p.stock < item.quantity)
    (hpre : ∀ q ∈ pre, ∀ r ∈ db.products, r.id = q.productId →
      q.quantity ≤ r.stock) :
    Orders.POST db input newId now =
      (Except.error (ApiError.insufficientStock p.name), db) := by
  have hitem : item ∈ input.items := by
    rw [hsplit]
    exact List.mem_append_right pre (List.mem_cons_self item post)
  have hidmem : p.id ∈ input.items.map fun it => it.productId := by
    rw [hpid]
    exact List.mem_map.mpr ⟨item, hitem, rfl⟩
  have hpmem : p ∈ findProducts db (input.items.map fun it => it.productId) :=
    mem_findProducts db _ p hp hidmem
  have hfnd : (findProducts db (input.items.map fun it => it.productId)).find?
      (fun q => q.id == item.productId) = some p :=
    find?_id_eq_some _ (findProducts_ids_nodup db _ hn) p hpmem _ hpid
  have hpre' : ∀ q ∈ pre, ∀ r,
      (findProducts db (input.items.map fun it => it.productId)).find?
        (fun x => x.id == q.productId) = some r → q.quantity ≤ r.stock := by
    intro q hq r hfr
    have hrmem : r ∈ findProducts db (input.items.map fun it => it.productId) :=
      List.mem_of_find?_eq_some hfr
    have hrid : r.id = q.productId := by
      have := List.find?_some hfr
      simpa using this
    exact hpre q hq r (of_mem_findProducts db _ r hrmem).1 hrid
  have hins : insufficientName
      (findProducts db (input.items.map fun it => it.productId)) input.items =
        some p.name := by
    rw [hsplit]
    have hsplit' : findProducts db (input.items.map fun it => it.productId) =
        findProducts db ((pre ++ item :: post).map fun it => it.productId) := by
      rw [hsplit]
    rw [← hsplit']
    exact insufficientName_first _ pre item post p hfnd hfail hpre'
  have hcheck : Orders.POST.check db input =
      some (ApiError.insufficientStock p.name) := by
    simp only [Orders.POST.check, hval, hcust, hlen, hins]
    simp
  simp only [Orders.POST, hcheck]

theorem valid_quantity_pos (input : OrderCreateInput)
    (hval : OrderCreateSchema.valid input = true) :
    ∀ it ∈ input.items, 1 ≤ it.quantity := by
  simp only [OrderCreateSchema.valid, Bool.and_eq_true, List.all_eq_true,
    decide_eq_true_eq, ge_iff_le] at hval
  intro it hit
  exact (hval.2 it hit).1.2

theorem valid_stock_nonneg (u : ProductUpdateInput)
    (hv : updateProductSchema.valid u = true) :
    ∀ s, u.stock = some s → 0 ≤ s := by
  simp only [updateProductSchema.valid, Bool.and_eq_true] at hv
  intro s hs
  have h2 := hv.2
  rw [hs, Option.all_some] at h2
  simpa using h2

/-! ## Claim C2 -/

/-- Claim C2 counterexample: stock is *not* non-negative under concurrent
decrement attempts.  Product `X` has stock 5; two requests for 3 of `X` both
pass the handler's stock-availability check (which the source performs before
its write transaction, on its own read of the state), and the two unconditional
decrement transactions then both commit, leaving stock −1 < 0. -/
theorem concurrent_creates_overdraw_stock :
    Orders.POST.check db0 reqThree = none ∧
      (Orders.POST.concurrentPair db0 reqThree reqThree "o1" "o2" 0).products.map
        Product.stock = [-1, 4] :=
  ⟨rfl, by decide⟩

/-- Claim C2 (amended): starting from a well-formed state (distinct product
ids, non-negative stocks, non-negative stored line quantities), every single
complete API operation — order creation (which checks `stock < quantity` per
line before its transaction), order cancellation and deletion (which increment
stock by stored quantities), product update (which accepts only `stock ≥ 0`)
and product deletion — leaves the state well-formed; in particular every
product's stock stays non-negative.  (The concurrency part of the original
claim is refuted separately.) -/
theorem apiOp_preserves_WF (db : DB) (op : ApiOp) (h : DB.WF db) :
    DB.WF (op.apply db) := by
  obtain ⟨hids, hstock, hqty⟩ := h
  cases op with
  | createOrder input newId now =>
    show DB.WF (Orders.POST db input newId now).2
    cases hc : Orders.POST.check db input with
    | some e =>
      simp only [Orders.POST, hc]
      exact ⟨hids, hstock, hqty⟩
    | none =>
      obtain ⟨hval, hcust, hlen, hins⟩ := Orders.POST.check_eq_none db input hc
      obtain ⟨hidnodup, hall⟩ := findProducts_length_facts db _ hids hlen
      simp only [Orders.POST, hc, Orders.POST.commit]
      refine ⟨?_, ?_, ?_⟩
      · rw [decrementStock_eq_map]
        simpa [List.map_map, Function.comp] using hids
      · intro p' hp'
        rw [decrementStock_eq_map] at hp'
        obtain ⟨p, hp, rfl⟩ := List.mem_map.mp hp'
        simp only
        by_cases hex : ∃ it ∈ input.items, it.productId = p.id
        · obtain ⟨it, hit, hitid⟩ := hex
          have hq : lineQuantityTotal input.items p.id = it.quantity := by
            rw [← hitid]
            exact lineQuantityTotal_eq_quantity input.items hidnodup it hit
          rw [hq]
          have hpmem : p ∈ findProducts db (input.items.map fun x => x.productId) := by
            refine mem_findProducts db _ p hp ?_
            rw [← hitid]
            exact List.mem_map.mpr ⟨it, hit, rfl⟩
          have hfnd := find?_id_eq_some _ (findProducts_ids_nodup db _ hids) p
            hpmem it.productId hitid.symm
          have hle := insufficientName_none_spec _ _ hins it hit p hfnd
          omega
        · push_neg at hex
          rw [lineQuantityTotal_eq_zero input.items p.id hex]
          have := hstock p hp
          omega
      · intro o ho it hit
        rcases List.mem_append.mp ho with ho | ho
        · exact hqty o ho it hit
        · rw [List.mem_singleton.mp ho] at hit
          obtain ⟨it', hit', rfl⟩ := List.mem_map.mp hit
          have h1 := valid_quantity_pos input hval it' hit'
          show (0 : ℤ) ≤ it'.quantity
          omega
  | updateOrder id u now =>
    show DB.WF (OrderDetail.PUT db id u now).2
    cases hf : db.orders.find? (fun o => o.id == id) with
    | none =>
      simp only [OrderDetail.PUT, hf]
      exact ⟨hids, hstock, hqty⟩
    | some o =>
      have homem : o ∈ db.orders := List.mem_of_find?_eq_some hf
      simp only [OrderDetail.PUT, hf]
      have hsu : ∀ x ∈ (if u.status = some OrderStatus.CANCELLED ∧
          o.status ≠ OrderStatus.CANCELLED then
            o.items.map fun it => (it.productId, it.quantity)
          else []), 0 ≤ x.2 := by
        intro x hx
        by_cases hcond : u.status = some OrderStatus.CANCELLED ∧
            o.status ≠ OrderStatus.CANCELLED
        · rw [if_pos hcond] at hx
          obtain ⟨it, hit, rfl⟩ := List.mem_map.mp hx
          exact hqty o homem it hit
        · rw [if_neg hcond] at hx
          cases hx
      refine ⟨?_, ?_, ?_⟩
      · rw [incrementStock_eq_map]
        simpa [List.map_map, Function.comp] using hids
      · intro p' hp'
        rw [incrementStock_eq_map] at hp'
        obtain ⟨p, hp, rfl⟩ := List.mem_map.mp hp'
        have h1 := hstock p hp
        have h2 := restoreTotalFor_nonneg _ hsu p.id
        simp only
        omega
      · intro o' ho' it hit
        obtain ⟨o₂, ho₂, hmp⟩ := List.mem_map.mp ho'
        have hit2 : it ∈ o₂.items := by
          by_cases hcc : (o₂.id == id) = true
          · rw [← hmp, if_pos hcc] at hit
            simpa [applyOrderUpdate] using hit
          · rw [← hmp, if_neg hcc] at hit
            exact hit
        exact hqty o₂ ho₂ it hit2
  | deleteOrder id =>
    show DB.WF (OrderDetail.DELETE db id).2
    cases hf : db.orders.find? (fun o => o.id == id) with
    | none =>
      simp only [OrderDetail.DELETE, hf]
      exact ⟨hids, hstock, hqty⟩
    | some o =>
      have homem : o ∈ db.orders := List.mem_of_find?_eq_some hf
      simp only [OrderDetail.DELETE, hf]
      by_cases hs : o.status ≠ OrderStatus.PENDING
      · rw [if_pos hs]
        exact ⟨hids, hstock, hqty⟩
      · rw [if_neg hs]
        refine ⟨?_, ?_, ?_⟩
        · rw [incrementStock_eq_map]
          simpa [List.map_map, Function.comp] using hids
        · intro p' hp'
          rw [incrementStock_eq_map] at hp'
          obtain ⟨p, hp, rfl⟩ := List.mem_map.mp hp'
          have h1 := hstock p hp
          have h2 : 0 ≤ restoreTotalFor (o.items.map fun it =>
              (it.productId, it.quantity)) p.id := by
            refine restoreTotalFor_nonneg _ ?_ p.id
            intro x hx
            obtain ⟨it, hit, rfl⟩ := List.mem_map.mp hx
            exact hqty o homem it hit
          simp only
          omega
        · intro o' ho' it hit
          exact hqty o' (List.mem_of_mem_filter ho') it hit
  | updateProduct id u =>
    show DB.WF (ProductDetail.PUT db id u).2
    by_cases hv : updateProductSchema.valid u = true
    · cases hf : db.products.find? (fun p => p.id == id) with
      | none =>
        have hstate : (ProductDetail.PUT db id u).2 = db := by
          simp [ProductDetail.PUT, hv, hf]
        rw [hstate]
        exact ⟨hids, hstock, hqty⟩
      | some p₀ =>
        by_cases hsku : (u.sku.any fun s => s != p₀.sku &&
            db.products.any fun p => p.sku == s) = true
        · have hstate : (ProductDetail.PUT db id u).2 = db := by
            simp [ProductDetail.PUT, hv, hf, hsku]
          rw [hstate]
          exact ⟨hids, hstock, hqty⟩
        · have hstate : (ProductDetail.PUT db id u).2 =
              { db with products := db.products.map fun p =>
                  if p.id == id then
                    { p with
                      name := u.name.getD p.name
                      price := u.price.getD p.price
                      sku := u.sku.getD p.sku
                      stock := u.stock.getD p.stock }
                  else p } := by
            simp [ProductDetail.PUT, hv, hf, hsku]
          rw [hstate]
          refine ⟨?_, ?_, ?_⟩
          · have hidseq : (db.products.map fun p =>
                if p.id == id then
                  { p with
                    name := u.name.getD p.name
                    price := u.price.getD p.price
                    sku := u.sku.getD p.sku
                    stock := u.stock.getD p.stock }
                else p).map Product.id = db.products.map Product.id := by
              rw [List.map_map]
              refine List.map_congr_left ?_
              intro p _
              by_cases hc : (p.id == id) = true <;>
                simp [Function.comp, hc]
            rw [hidseq]
            exact hids
          · intro p' hp'
            obtain ⟨p, hp, hmp⟩ := List.mem_map.mp hp'
            by_cases hc : (p.id == id) = true
            · rw [if_pos hc] at hmp
              rw [← hmp]
              show (0 : ℤ) ≤ u.stock.getD p.stock
              cases hst : u.stock with
              | none =>
                simp only [hst, Option.getD_none]
                exact hstock p hp
              | some s =>
                simp only [hst, Option.getD_some]
                exact valid_stock_nonneg u hv s hst
            · rw [if_neg hc] at hmp
              rw [← hmp]
              exact hstock p hp
          · exact hqty
    · have hstate : (ProductDetail.PUT db id u).2 = db := by
        simp [ProductDetail.PUT, hv]
      rw [hstate]
      exact ⟨hids, hstock, hqty⟩
  | deleteProduct id =>
    show DB.WF (ProductDetail.DELETE db id).2
    cases hf : db.products.find? (fun p => p.id == id) with
    | none =>
      simp only [ProductDetail.DELETE, hf]
      exact ⟨hids, hstock, hqty⟩
    | some p₀ =>
      simp only [ProductDetail.DELETE, hf]
      by_cases hl : (productOrderItems db p₀.id).length > 0
      · rw [if_pos hl]
        exact ⟨hids, hstock, hqty⟩
      · rw [if_neg hl]
        refine ⟨?_, ?_, ?_⟩
        · exact List.Nodup.sublist
            ((List.filter_sublist db.products).map Product.id) hids
        · intro p' hp'
          exact hstock p' (List.mem_of_mem_filter hp')
        · exact hqty

/-- Witness for C1: in `db0`, the request `reqPartial` (2 of `X`, then 9 of
`Y` with only 4 in stock) fails naming `Y`, and the state is unchanged. -/
theorem orders_POST_insufficient_stock_all_or_nothing_witness :
    Orders.POST db0 reqPartial "o1" 0 =
      (Except.error (ApiError.insufficientStock "Y"), db0) :=
  orders_POST_insufficient_stock_all_or_nothing db0 reqPartial "o1" 0
    [{ productId := "px", quantity := 2, price := 10 }] []
    { productId := "py", quantity := 9, price := 20 } prodY
    (by decide) (by decide) (by decide) (by decide) (by decide)
    (by decide) (by decide) (by decide) (by decide)

/-- Witness for C2 (amended): `db0` is well-formed and stays so across a
concrete order creation. -/
theorem apiOp_preserves_WF_witness :
    DB.WF db0 ∧ DB.WF ((ApiOp.createOrder reqXY "o1" 0).apply db0) :=
  ⟨by decide, apiOp_preserves_WF db0 (ApiOp.createOrder reqXY "o1" 0) (by decide)⟩

/-! ## Claim C3 -/

/-- Claim C3 counterexample: `PENDING → SHIPPED` directly is *not* rejected.
In `db1` the stored order is `PENDING`; requesting status `SHIPPED` succeeds
(the update handler performs no transition validation) and the stored status
becomes `SHIPPED`. -/
theorem pending_to_shipped_accepted :
    db1.orders.map Order.status = [OrderStatus.PENDING] ∧
      (OrderDetail.PUT db1 "o1" upShipped 1).1.toBool = true ∧
      (OrderDetail.PUT db1 "o1" upShipped 1).2.orders.map Order.status =
        [OrderStatus.SHIPPED] :=
  ⟨rfl, rfl, rfl⟩

/-- Claim C3 (amended): `PUT /api/orders/[id]` enforces no transition
relation at all: whenever the order exists, *any* requested status among the
six enum values is accepted from *any* current status, and the stored status
becomes the requested one.  (In particular `PENDING → SHIPPED` succeeds, and
each step of `PENDING → CONFIRMED → PROCESSING → SHIPPED → DELIVERED`
succeeds; only values outside the enum fail, at schema validation.) -/
theorem orderDetail_PUT_accepts_any_status
    (db : DB) (id : String) (u : OrderUpdateInput) (now : ℤ) (o : Order)
    (s : OrderStatus)
    (hfind : db.orders.find? (fun x => x.id == id) = some o)
    (hs : u.status = some s) :
    (OrderDetail.PUT db id u now).1 = Except.ok (applyOrderUpdate o u now) ∧
      (applyOrderUpdate o u now).status = s := by
  constructor
  · simp only [OrderDetail.PUT, hfind]
  · simp [applyOrderUpdate, hs]

/-- Witness for C3 (amended): the `PENDING` order in `db1` is moved straight
to `SHIPPED`. -/
theorem orderDetail_PUT_accepts_any_status_witness :
    (OrderDetail.PUT db1 "o1" upShipped 1).1 =
      Except.ok (applyOrderUpdate ordXY upShipped 1) ∧
      (applyOrderUpdate ordXY upShipped 1).status = OrderStatus.SHIPPED :=
  orderDetail_PUT_accepts_any_status db1 "o1" upShipped 1 ordXY
    OrderStatus.SHIPPED (by rfl) rfl

/-! ## Claim C4 -/

/-- Claim C4 counterexample: the stored line price is *not* a snapshot of the
catalog price.  In `db0` the catalog price of `py` is 20, yet the request
carrying price 7 creates an order whose stored line price is 7. -/
theorem order_line_price_not_from_catalog :
    (db0.products.map fun p => (p.id, p.price)) = [("px", 10), ("py", 20)] ∧
      (Orders.POST db0 reqCheap "o1" 0).1 = Except.ok ordCheap ∧
      ordCheap.items.map OrderItem.price = [7] ∧
      (7 : ℚ) ≠ 20 :=
  ⟨rfl, rfl, rfl, by norm_num⟩

/-- Claim C4 (amended): each stored line price of a successfully created
order equals the price supplied in the corresponding *request* line (the
handler never reads the catalog price); and the product-update endpoint never
touches stored orders, so later catalog price changes leave every stored
order (line prices and totals) unchanged. -/
theorem order_line_price_from_request_and_frame :
    (∀ db input newId now o db',
      Orders.POST db input newId now = (Except.ok o, db') →
        o.items.map OrderItem.price = input.items.map OrderItemInput.price) ∧
      (∀ db id u, (ProductDetail.PUT db id u).2.orders = db.orders) := by
  constructor
  · intro db input newId now o db' h
    cases hc : Orders.POST.check db input with
    | some e =>
      rw [Orders.POST] at h
      rw [hc] at h
      cases h
    | none =>
      rw [Orders.POST] at h
      rw [hc] at h
      have ho : o = (Orders.POST.commit db input newId now).1 :=
        (Except.ok.inj (congrArg Prod.fst h)).symm
      rw [ho]
      simp [Orders.POST.commit, List.map_map, Function.comp]
  · intro db id u
    by_cases hv : updateProductSchema.valid u = true
    · cases hf : db.products.find? (fun p => p.id == id) with
      | none => simp [ProductDetail.PUT, hv, hf]
      | some p₀ =>
        by_cases hsku : (u.sku.any fun s => s != p₀.sku &&
            db.products.any fun p => p.sku == s) = true
        · simp [ProductDetail.PUT, hv, hf, hsku]
        · simp [ProductDetail.PUT, hv, hf, hsku]
    · simp [ProductDetail.PUT, hv]

/-- Witness for C4 (amended): the stored line prices of the `reqCheap` order
are exactly the request's prices. -/
theorem order_line_price_from_request_and_frame_witness :
    ordCheap.items.map OrderItem.price =
      reqCheap.items.map OrderItemInput.price :=
  order_line_price_from_request_and_frame.1 db0 reqCheap "o1" 0 ordCheap db4
    (by rfl)

/-! ## Claim C5 -/

theorem restoreTotalFor_eq_zero (upd : List (String × ℤ)) (pid : String)
    (h : ∀ u ∈ upd, u.1 ≠ pid) : restoreTotalFor upd pid = 0 := by
  rw [restoreTotalFor]
  have hnil : upd.filter (fun u => u.1 == pid) = [] := by
    rw [List.filter_eq_nil_iff]
    intro u hu hbeq
    exact h u hu (by simpa using hbeq)
  rw [hnil]
  rfl

theorem restoreTotalFor_map_items (items : List OrderItem)
    (hn : (items.map fun it => it.productId).Nodup)
    (l : OrderItem) (hl : l ∈ items) :
    restoreTotalFor (items.map fun it => (it.productId, it.quantity))
      l.productId = l.quantity := by
  induction items with
  | nil => cases hl
  | cons a rest ih =>
    have hn' := hn
    rw [List.map_cons, List.nodup_cons] at hn'
    rw [List.map_cons, restoreTotalFor_cons]
    rcases List.mem_cons.mp hl with rfl | hmem
    · rw [if_pos rfl]
      have hzero : restoreTotalFor (rest.map fun it =>
          (it.productId, it.quantity)) l.productId = 0 := by
        refine restoreTotalFor_eq_zero _ _ ?_
        intro u hu
        obtain ⟨it, hit, rfl⟩ := List.mem_map.mp hu
        intro he
        exact hn'.1 (he ▸ List.mem_map.mpr ⟨it, hit, rfl⟩)
      rw [hzero, add_zero]
    · have hne : a.productId ≠ l.productId := by
        intro he
        exact hn'.1 (he ▸ List.mem_map.mpr ⟨l, hmem, rfl⟩)
      rw [if_neg hne]
      exact ih hn'.2 hmem

/-- Claim C5 counterexample: requesting `CANCELLED` on an order that is
already `CANCELLED` is *not* rejected: in `db2` (whose only order is
`CANCELLED`) the request succeeds silently; it does leave stock unchanged. -/
theorem recancel_accepted_silently :
    db2.orders.map Order.status = [OrderStatus.CANCELLED] ∧
      (OrderDetail.PUT db2 "o1" upCancelled 2).1.toBool = true ∧
      (OrderDetail.PUT db2 "o1" upCancelled 2).2.products = db2.products :=
  ⟨rfl, rfl, rfl⟩

/-- Claim C5 (amended): transitioning an order into `CANCELLED` from a
non-`CANCELLED` state increments, in the same transaction as the status
update, each product's stock by the total quantity that order's lines carry
for it — exactly that line's quantity when the order's lines name distinct
products; requesting `CANCELLED` on an already-`CANCELLED` order is *not*
rejected: it succeeds silently, but performs no second stock restore. -/
theorem orderDetail_PUT_cancel_spec
    (db : DB) (id : String) (u : OrderUpdateInput) (now : ℤ) (o : Order)
    (hfind : db.orders.find? (fun x => x.id == id) = some o)
    (hu : u.status = some OrderStatus.CANCELLED) :
    (o.status ≠ OrderStatus.CANCELLED →
      (OrderDetail.PUT db id u now).1 = Except.ok (applyOrderUpdate o u now) ∧
      (applyOrderUpdate o u now).status = OrderStatus.CANCELLED ∧
      (OrderDetail.PUT db id u now).2.products =
        db.products.map
          (fun p =>
            { p with
              stock :=
                p.stock +
                  restoreTotalFor
                    (o.items.map fun it => (it.productId, it.quantity)) p.id }) ∧
      ((o.items.map fun it => it.productId).Nodup → ∀ l ∈ o.items,
        restoreTotalFor (o.items.map fun it => (it.productId, it.quantity))
          l.productId = l.quantity)) ∧
    (o.status = OrderStatus.CANCELLED →
      (OrderDetail.PUT db id u now).1 = Except.ok (applyOrderUpdate o u now) ∧
      (OrderDetail.PUT db id u now).2.products = db.products) := by
  constructor
  · intro hne
    have hcond : u.status = some OrderStatus.CANCELLED ∧
        o.status ≠ OrderStatus.CANCELLED := ⟨hu, hne⟩
    refine ⟨?_, ?_, ?_, ?_⟩
    · simp only [OrderDetail.PUT, hfind]
    · simp [applyOrderUpdate, hu]
    · simp only [OrderDetail.PUT, hfind, if_pos hcond]
      rw [incrementStock_eq_map]
    · intro hn l hl
      exact restoreTotalFor_map_items o.items hn l hl
  · intro heq
    have hcond : ¬ (u.status = some OrderStatus.CANCELLED ∧
        o.status ≠ OrderStatus.CANCELLED) := fun hc => hc.2 heq
    refine ⟨?_, ?_⟩
    · simp only [OrderDetail.PUT, hfind]
    · simp only [OrderDetail.PUT, hfind, if_neg hcond]
      rfl

/-- Witness for C5 (amended): cancelling the `PENDING` order of `db1`
succeeds and bumps each product's stock by that order's line quantity. -/
theorem orderDetail_PUT_cancel_spec_witness :
    (OrderDetail.PUT db1 "o1" upCancelled 1).1 = Except.ok ordCancelled ∧
      (OrderDetail.PUT db1 "o1" upCancelled 1).2.products =
        db1.products.map
          (fun p =>
            { p with
              stock :=
                p.stock +
                  restoreTotalFor
                    (ordXY.items.map fun it => (it.productId, it.quantity))
                    p.id }) := by
  have h := (orderDetail_PUT_cancel_spec db1 "o1" upCancelled 1 ordXY
    (by rfl) rfl).1 (by decide)
  exact ⟨h.1, h.2.2.1⟩

/-! ## Claim C6 -/

/-- Claim C6: `DELETE /api/orders/[id]` succeeds only on `PENDING` orders.
On any other status it returns the illegal-delete error and the state is
untouched; on a `PENDING` order it removes the order (together with its
lines, which live inside the order row) and increments each product's stock
by the total quantity the order's lines carry for it, in one transaction. -/
theorem orderDetail_DELETE_spec
    (db : DB) (id : String) (o : Order)
    (hfind : db.orders.find? (fun x => x.id == id) = some o) :
    (o.status ≠ OrderStatus.PENDING →
      OrderDetail.DELETE db id =
        (Except.error ApiError.onlyPendingOrdersCanBeDeleted, db)) ∧
    (o.status = OrderStatus.PENDING →
      (OrderDetail.DELETE db id).1 = Except.ok () ∧
      (OrderDetail.DELETE db id).2.orders =
        db.orders.filter (fun x => ¬ x.id == id) ∧
      (OrderDetail.DELETE db id).2.orders.find? (fun x => x.id == id) =
        none ∧
      (OrderDetail.DELETE db id).2.products =
        db.products.map
          (fun p =>
            { p with
              stock :=
                p.stock +
                  restoreTotalFor
                    (o.items.map fun it => (it.productId, it.quantity))
                    p.id })) := by
  constructor
  · intro hne
    simp only [OrderDetail.DELETE, hfind, if_pos hne]
  · intro heq
    have hnn : ¬ o.status ≠ OrderStatus.PENDING := fun hne => hne heq
    refine ⟨?_, ?_, ?_, ?_⟩
    · simp only [OrderDetail.DELETE, hfind, if_neg hnn]
    · simp only [OrderDetail.DELETE, hfind, if_neg hnn]
    · simp only [OrderDetail.DELETE, hfind, if_neg hnn]
      rw [List.find?_eq_none]
      intro x hx
      have hmem := (List.mem_filter.mp hx).2
      simpa using hmem
    · simp only [OrderDetail.DELETE, hfind, if_neg hnn]
      rw [incrementStock_eq_map]

/-- Witness for C6: deleting the `PENDING` order of `db1` succeeds and the
order is gone afterwards. -/
theorem orderDetail_DELETE_spec_witness :
    (OrderDetail.DELETE db1 "o1").1 = Except.ok () ∧
      (OrderDetail.DELETE db1 "o1").2.orders.find? (fun x => x.id == "o1") =
        none := by
  have h := (orderDetail_DELETE_spec db1 "o1" ordXY (by rfl)).2 rfl
  exact ⟨h.1, h.2.2.1⟩

/-! ## Claim C7 -/

theorem orderSubtotal_eq_sum (items : List OrderItemInput) :
    orderSubtotal items =
      (items.map fun it => it.price * (it.quantity : ℚ)).sum := by
  suffices h : ∀ a : ℚ,
      items.foldl (fun sum it => sum + it.price * (it.quantity : ℚ)) a =
        a + (items.map fun it => it.price * (it.quantity : ℚ)).sum by
    simpa [orderSubtotal] using h 0
  induction items with
  | nil =>
    intro a
    simp
  | cons it rest ih =>
    intro a
    simp [List.foldl_cons, ih, add_assoc]

/-- Claim C7: every successfully created order satisfies
`subtotal = Σ line totals` with `line total = price × quantity`,
`tax = subtotal × 10 %`, `shipping = 10`, and
`total = subtotal + tax + shipping`; and the order-update operation never
changes `subtotal`, `tax`, `shipping` or `total`, so the equation keeps
holding after every mutation of the order. -/
theorem orders_POST_totals
    (db : DB) (input : OrderCreateInput) (newId : String) (now : ℤ)
    (o : Order) (db' : DB)
    (h : Orders.POST db input newId now = (Except.ok o, db')) :
    o.subtotal = (o.items.map OrderItem.total).sum ∧
      (∀ l ∈ o.items, l.total = l.price * (l.quantity : ℚ)) ∧
      o.tax = o.subtotal * (1 / 10) ∧
      o.shipping = 10 ∧
      o.total = o.subtotal + o.tax + o.shipping ∧
      (∀ o₂ u now₂,
        (applyOrderUpdate o₂ u now₂).subtotal = o₂.subtotal ∧
          (applyOrderUpdate o₂ u now₂).tax = o₂.tax ∧
          (applyOrderUpdate o₂ u now₂).shipping = o₂.shipping ∧
          (applyOrderUpdate o₂ u now₂).total = o₂.total) := by
  cases hc : Orders.POST.check db input with
  | some e =>
    rw [Orders.POST] at h
    rw [hc] at h
    cases h
  | none =>
    rw [Orders.POST] at h
    rw [hc] at h
    have ho : o = (Orders.POST.commit db input newId now).1 :=
      (Except.ok.inj (congrArg Prod.fst h)).symm
    subst ho
    refine ⟨?_, ?_, rfl, rfl, rfl, ?_⟩
    · show orderSubtotal input.items = _
      rw [orderSubtotal_eq_sum]
      congr 1
      simp [Orders.POST.commit, List.map_map, Function.comp]
    · intro l hl
      simp only [Orders.POST.commit] at hl
      obtain ⟨it, hit, rfl⟩ := List.mem_map.mp hl
      rfl
    · intro o₂ u now₂
      exact ⟨rfl, rfl, rfl, rfl⟩

/-- Witness for C7: the spec's scenario — lines `[(X,2,$10),(Y,1,$20)]` give
subtotal 40, tax 4, shipping 10, total 54 — and the totals equation holds. -/
theorem orders_POST_totals_witness :
    ordXY.subtotal = 40 ∧ ordXY.tax = 4 ∧ ordXY.shipping = 10 ∧
      ordXY.total = 54 ∧
      ordXY.total = ordXY.subtotal + ordXY.tax + ordXY.shipping := by
  have h := orders_POST_totals db0 reqXY "o1" 0 ordXY db1 (by rfl)
  refine ⟨?_, ?_, h.2.2.2.1, ?_, h.2.2.2.2.1⟩
  · norm_num [ordXY, Orders.POST.commit, orderSubtotal, reqXY]
  · norm_num [ordXY, Orders.POST.commit, orderSubtotal, reqXY]
  · norm_num [ordXY, Orders.POST.commit, orderSubtotal, reqXY]

/-! ## Claim C8 -/

/-- Claim C8: `DELETE /api/products/[id]` on an existing product is rejected
(with nothing changed) exactly when some order line references the product,
and succeeds — removing only that product, orders untouched — when no order
line references it. -/
theorem productDetail_DELETE_spec
    (db : DB) (id : String) (p : Product)
    (hfind : db.products.find? (fun q => q.id == id) = some p) :
    (productOrderItems db p.id = [] ↔
      ∀ o ∈ db.orders, ∀ it ∈ o.items, it.productId ≠ p.id) ∧
    (productOrderItems db p.id ≠ [] →
      ProductDetail.DELETE db id =
        (Except.error ApiError.cannotDeleteProductWithOrders, db)) ∧
    (productOrderItems db p.id = [] →
      ProductDetail.DELETE db id =
        (Except.ok (),
          { db with products := db.products.filter fun q => ¬ q.id == id })) := by
  refine ⟨?_, ?_, ?_⟩
  · rw [productOrderItems, List.flatten_eq_nil_iff]
    constructor
    · intro hall o ho it hit he
      have hm : o.items.filter (fun x => x.productId == p.id) ∈
          db.orders.map fun o₂ => o₂.items.filter fun x => x.productId == p.id :=
        List.mem_map.mpr ⟨o, ho, rfl⟩
      have hnil := hall _ hm
      have hin : it ∈ o.items.filter (fun x => x.productId == p.id) :=
        List.mem_filter.mpr ⟨hit, by simp [he]⟩
      rw [hnil] at hin
      cases hin
    · intro hno l hl
      obtain ⟨o, ho, rfl⟩ := List.mem_map.mp hl
      rw [List.filter_eq_nil_iff]
      intro it hit hbeq
      exact hno o ho it hit (by simpa using hbeq)
  · intro hne
    have hlen : (productOrderItems db p.id).length > 0 :=
      List.length_pos.mpr hne
    simp only [ProductDetail.DELETE, hfind, if_pos hlen]
  · intro hnil
    have hlen : ¬ (productOrderItems db p.id).length > 0 := by
      rw [hnil]
      simp
    simp only [ProductDetail.DELETE, hfind, if_neg hlen]

/-- Witness for C8: `px` has no order lines in `db0`, so deleting it
succeeds and removes exactly that row. -/
theorem productDetail_DELETE_spec_witness :
    ProductDetail.DELETE db0 "px" =
      (Except.ok (),
        { db0 with products := db0.products.filter fun q => ¬ q.id == "px" }) :=
  (productDetail_DELETE_spec db0 "px" prodX (by rfl)).2.2 (by rfl)

/-! ## Claim C9 -/

/-- Claim C9: a creation request that names the same product on two or more
lines fails with the products-not-found error — even though the product
exists — because the handler compares the count of distinct rows returned by
the lookup with the count of requested (duplicated) ids; no order is created
and no stock changes. -/
theorem orders_POST_duplicate_product_ids
    (db : DB) (input : OrderCreateInput) (newId : String) (now : ℤ)
    (hn : (db.products.map Product.id).Nodup)
    (hval : OrderCreateSchema.valid input = true)
    (hcust : db.customers.contains input.customerId = true)
    (hdup : ¬ (input.items.map fun it => it.productId).Nodup) :
    Orders.POST db input newId now =
      (Except.error ApiError.productsNotFound, db) := by
  have hne : (findProducts db (input.items.map fun it => it.productId)).length ≠
      (input.items.map fun it => it.productId).length := by
    intro heq
    exact hdup (findProducts_length_facts db _ hn heq).1
  have hne' : (findProducts db (input.items.map fun it => it.productId)).length ≠
      input.items.length := by
    simpa using hne
  have hcheck : Orders.POST.check db input = some ApiError.productsNotFound := by
    simp only [Orders.POST.check, hval, hcust]
    simp [hne']
  simp only [Orders.POST, hcheck]

/-- Witness for C9: `reqDup` names `px` twice; the request is rejected with
the not-found error and `db0` is unchanged. -/
theorem orders_POST_duplicate_product_ids_witness :
    Orders.POST db0 reqDup "o1" 0 =
      (Except.error ApiError.productsNotFound, db0) :=
  orders_POST_duplicate_product_ids db0 reqDup "o1" 0
    (by decide) (by decide) (by decide) (by decide)

/-! ## Claim C10 -/

/-- Claim C10: `PUT /api/orders/[id]` can modify only `status`,
`paymentStatus`, `shippingStatus`, `notes`, `shippingAddressId` and
`updatedAt`: the updated order keeps its `subtotal`, `tax`, `shipping`,
`total`, `customerId`, `orderNumber`, `createdAt`, `id` and its entire list
of lines, and the stored orders are exactly the old ones with the matching
order replaced by its update — hence a totals equation holding before the
update still holds after it. -/
theorem orderDetail_PUT_frame
    (db : DB) (id : String) (u : OrderUpdateInput) (now : ℤ) (o : Order)
    (hfind : db.orders.find? (fun x => x.id == id) = some o) :
    (OrderDetail.PUT db id u now).1 = Except.ok (applyOrderUpdate o u now) ∧
      (OrderDetail.PUT db id u now).2.orders =
        db.orders.map
          (fun x => if x.id == id then applyOrderUpdate x u now else x) ∧
      (applyOrderUpdate o u now).subtotal = o.subtotal ∧
      (applyOrderUpdate o u now).tax = o.tax ∧
      (applyOrderUpdate o u now).shipping = o.shipping ∧
      (applyOrderUpdate o u now).total = o.total ∧
      (applyOrderUpdate o u now).customerId = o.customerId ∧
      (applyOrderUpdate o u now).orderNumber = o.orderNumber ∧
      (applyOrderUpdate o u now).createdAt = o.createdAt ∧
      (applyOrderUpdate o u now).items = o.items ∧
      (applyOrderUpdate o u now).id = o.id ∧
      (applyOrderUpdate o u now).status = u.status.getD o.status ∧
      (applyOrderUpdate o u now).updatedAt = now ∧
      (o.total = o.subtotal + o.tax + o.shipping →
        (applyOrderUpdate o u now).total =
          (applyOrderUpdate o u now).subtotal +
            (applyOrderUpdate o u now).tax +
            (applyOrderUpdate o u now).shipping) := by
  refine ⟨?_, ?_, rfl, rfl, rfl, rfl, rfl, rfl, rfl, rfl, rfl, rfl, rfl, ?_⟩
  · simp only [OrderDetail.PUT, hfind]
  · simp only [OrderDetail.PUT, hfind]
  · intro he
    exact he

/-- Witness for C10: updating the `db1` order to `SHIPPED` keeps its
monetary fields and lines. -/
theorem orderDetail_PUT_frame_witness :
    (applyOrderUpdate ordXY upShipped 1).subtotal = ordXY.subtotal ∧
      (applyOrderUpdate ordXY upShipped 1).items = ordXY.items := by
  have h := orderDetail_PUT_frame db1 "o1" upShipped 1 ordXY (by rfl)
  exact ⟨h.2.2.1, h.2.2.2.2.2.2.2.2.2.1⟩
